import Mathlib

/-!
# Verification of the SPLICE drum-pattern decoder

A shallow embedding, in Lean 4, of `drum/decoder.go` (the variant with the
track-reading loop, the authoritative decoder of this repository): the
`decode` pipeline over an in-memory byte sequence, with the decoder state
(`*os.File` offset, latched `lastErr`, partially built `Pattern`) made
explicit.  `binary.Read` over a file is modelled by `dread`: a read of `n`
bytes succeeds and advances the offset by `n` when `n` bytes remain,
otherwise it consumes everything that remains (the `io.ReadFull` behaviour),
leaves the destination buffer untouched (zero-filled) and latches an error.
`bytes.Trim(b, "\x00")` is `trimNuls`, which removes the leading *and*
trailing runs of NUL bytes.  The Go loop `for currentOffset() < maxOffset`
can run forever (a latched error makes `readTrack` a no-op that never
advances the offset), so the loop is given explicit fuel: a `none` result
means the loop has not finished within the given fuel, and `decodeLoop` is
monotone in fuel, so a `some` result is the program's actual result.

Bytes are natural numbers; multi-byte integers are assembled by `beNat`
(big-endian, the `binary.BigEndian` branch of `read`) and `leNat`
(little-endian, the float branch).  The tempo is kept as its raw 32-bit
pattern assembled little-endian; `f32ToRat` decodes such a pattern as an
IEEE-754 single-precision value into `ℚ` so that statements about the
numeric tempo (`120.0`) can be made exactly.
-/

namespace Drum

/-- Error values the decoder can latch: the `errors.New("Invalid header")`
of `checkHeader`, and the `io.EOF` / `io.ErrUnexpectedEOF` family produced
by `binary.Read` on insufficient input. -/
inductive Err where
  | invalidHeader
  | truncated
deriving DecidableEq, Repr

/-- The `Track` struct: `ID byte`, `Name string` (bytes), `Steps []byte`. -/
structure Track where
  id : Nat
  name : List Nat
  steps : List Nat
deriving DecidableEq, Repr

/-- The `Pattern` struct.  `header` is declared in the Go struct but never
assigned by `decode`; `version` and `name` strings are kept as byte lists;
`tempo` is the raw little-endian-assembled 32-bit float pattern. -/
structure Pattern where
  header : List Nat := []
  version : List Nat := []
  tempo : Nat := 0
  tracks : List Track := []
deriving DecidableEq, Repr

/-- The `decoder` struct: the file (input bytes plus current offset), the
latched `lastErr`, and the pattern under construction. -/
structure DecState where
  input : List Nat
  off : Nat
  lastErr : Option Err
  pattern : Pattern
deriving DecidableEq, Repr

/-- Fresh decoder state over an input, as built at the top of `decode`. -/
def DecState.init (input : List Nat) : DecState :=
  { input := input, off := 0, lastErr := none, pattern := {} }

/-- Big-endian assembly of a byte list (the `binary.BigEndian` reads). -/
def beNat (bs : List Nat) : Nat :=
  bs.foldl (fun acc b => acc * 256 + b) 0

/-- Little-endian assembly of a byte list (the `binary.LittleEndian` reads
used for floats). -/
def leNat (bs : List Nat) : Nat :=
  bs.foldr (fun b acc => acc * 256 + b) 0

/-- `bytes.Trim(bs, "\x00")`: removes the leading and trailing runs of
NUL (0) bytes. -/
def trimNuls (bs : List Nat) : List Nat :=
  ((bs.dropWhile (· = 0)).reverse.dropWhile (· = 0)).reverse

/-- The ASCII bytes of the literal `SPLICE`. -/
def spliceBytes : List Nat := [83, 80, 76, 73, 67, 69]

/-- One `binary.Read` of `n` bytes from the file: with `n` bytes remaining
the bytes are returned and the offset advances by `n`; otherwise
`io.ReadFull` consumes whatever remains (the offset moves to end of input),
the destination is left untouched, and the read error is latched
(overwriting any previous `lastErr`, exactly as `d.read` does). -/
def dread (s : DecState) (n : Nat) : DecState × Option (List Nat) :=
  if s.off + n ≤ s.input.length then
    ({ s with off := s.off + n }, some ((s.input.drop s.off).take n))
  else
    ({ s with off := s.input.length, lastErr := some .truncated }, none)

/-- `checkHeader`: skipped if an error is latched; otherwise reads 6 bytes
into a zero-initialised buffer and compares against `SPLICE`
*unconditionally* — when the read failed the buffer is still all zeros and
the mismatch error overwrites the read error. -/
def checkHeader (s : DecState) : DecState :=
  if s.lastErr.isSome then s
  else
    let (s1, hdr) := dread s 6
    if hdr.getD (List.replicate 6 0) = spliceBytes then s1
    else { s1 with lastErr := some .invalidHeader }

/-- `readLength`: returns 0 without reading if an error is latched;
otherwise reads an 8-byte big-endian unsigned integer (0 and an error
latched if the read fails, the local `length` staying zero). -/
def readLengthSt (s : DecState) : DecState × Nat :=
  if s.lastErr.isSome then (s, 0)
  else
    let (s1, bs) := dread s 8
    (s1, beNat (bs.getD (List.replicate 8 0)))

/-- `readVersion`: skipped if an error is latched; otherwise reads 32 bytes
(zeros if the read fails), trims NULs from both ends, and stores the
result — also after a failed read. -/
def readVersion (s : DecState) : DecState :=
  if s.lastErr.isSome then s
  else
    let (s1, bs) := dread s 32
    { s1 with pattern.version := trimNuls (bs.getD (List.replicate 32 0)) }

/-- `readTempo`: skipped if an error is latched; otherwise reads a 4-byte
little-endian float into `pattern.Tempo` (left untouched if the read
fails). -/
def readTempo (s : DecState) : DecState :=
  if s.lastErr.isSome then s
  else
    let (s1, bs) := dread s 4
    match bs with
    | some l => { s1 with pattern.tempo := leNat l }
    | none => s1

/-- `readTrack`: skipped entirely if an error is latched on entry; otherwise
performs its four reads without re-checking errors in between (each later
read of a still-possible width proceeds; buffers left zeroed on failure;
`length` stays 0 when its read fails) and appends the track
unconditionally. -/
def readTrack (s : DecState) : DecState :=
  if s.lastErr.isSome then s
  else
    let (s1, idb) := dread s 1
    let id := (idb.getD [0]).headD 0
    let (s2, lb) := dread s1 4
    let len := beNat (lb.getD (List.replicate 4 0))
    let (s3, nb) := dread s2 len
    let name := trimNuls (nb.getD (List.replicate len 0))
    let (s4, sb) := dread s3 16
    let steps := sb.getD (List.replicate 16 0)
    { s4 with pattern.tracks := s4.pattern.tracks ++ [⟨id, name, steps⟩] }

/-- The loop `for d.currentOffset() < maxOffset { d.readTrack() }`, with
explicit fuel.  `none` means the loop did not finish within `fuel`
iterations; since a latched error makes `readTrack` the identity, the Go
loop genuinely runs forever in exactly the situations where every fuel
yields `none`. -/
def decodeLoop : Nat → Nat → DecState → Option DecState
  | 0, _, _ => none
  | fuel + 1, maxOff, s =>
    if s.off < maxOff then decodeLoop fuel maxOff (readTrack s)
    else some s

/-- The straight-line part of `decode` before the track loop, returning the
state after `readTempo` together with `maxOffset`.  `maxOffset :=
d.currentOffset() + length` is `uint64` arithmetic, hence the reduction
modulo `2^64`. -/
def preTracks (input : List Nat) : DecState × Nat :=
  let s1 := checkHeader (DecState.init input)
  let (s2, length) := readLengthSt s1
  let maxOff := (s2.off + length) % 2 ^ 64
  let s3 := readVersion s2
  let s4 := readTempo s3
  (s4, maxOff)

/-- `decode` down to its final decoder state (`none`: the track loop has not
terminated within `fuel` iterations). -/
def decodeAux (fuel : Nat) (input : List Nat) : Option DecState :=
  decodeLoop fuel (preTracks input).2 (preTracks input).1

/-- `decode`: runs the pipeline and returns `(nil, lastErr)` when an error
is latched, `(pattern, nil)` otherwise.  `none` means the Go program never
returns on this input (track loop runs forever). -/
def decode (fuel : Nat) (input : List Nat) : Option (Except Err Pattern) :=
  (decodeAux fuel input).map fun s =>
    match s.lastErr with
    | some e => .error e
    | none => .ok s.pattern

/-- IEEE-754 single-precision interpretation of a 32-bit pattern, as an
exact rational (infinities and NaNs mapped to 0; not used on such inputs). -/
def f32ToRat (bits : Nat) : ℚ :=
  let sign : Nat := bits / 2 ^ 31 % 2
  let exp : Nat := bits / 2 ^ 23 % 2 ^ 8
  let frac : Nat := bits % 2 ^ 23
  let mag : ℚ :=
    if exp = 0 then (frac : ℚ) / 2 ^ 23 * ((2 : ℚ) ^ (126 : ℕ))⁻¹
    else if exp = 255 then 0
    else (1 + (frac : ℚ) / 2 ^ 23) * (2 : ℚ) ^ ((exp : ℤ) - 127)
  if sign = 1 then -mag else mag

instance : DecidableEq (Except Err Pattern) := fun a b =>
  match a, b with
  | .ok x, .ok y => decidable_of_iff (x = y) (by simp)
  | .error x, .error y => decidable_of_iff (x = y) (by simp)
  | .ok _, .error _ => isFalse (by simp)
  | .error _, .ok _ => isFalse (by simp)

/-!
## Fixtures
-/

/-- The canonical well-formed fixture: tag `SPLICE`, body length 61
(big-endian), 32-byte NUL-padded version `0.808-alpha`, little-endian float
tempo 120.0 (bit pattern `0x42F00000`, bytes `00 00 F0 42`), one track:
id 0, name length 4, name `kick`, 16 steps alternating `1,0,0,0,...`. -/
def canonicalFixture : List Nat :=
  spliceBytes ++ [0, 0, 0, 0, 0, 0, 0, 61] ++
  ([48, 46, 56, 48, 56, 45, 97, 108, 112, 104, 97] ++ List.replicate 21 0) ++
  [0, 0, 240, 66] ++
  [0] ++ [0, 0, 0, 4] ++ [107, 105, 99, 107] ++
  [1, 0, 0, 0, 1, 0, 0, 0, 1, 0, 0, 0, 1, 0, 0, 0]

/-- The pattern the canonical fixture decodes to. -/
def canonicalPattern : Pattern :=
  { version := [48, 46, 56, 48, 56, 45, 97, 108, 112, 104, 97],
    tempo := 1123024896,
    tracks := [⟨0, [107, 105, 99, 107],
                [1, 0, 0, 0, 1, 0, 0, 0, 1, 0, 0, 0, 1, 0, 0, 0]⟩] }

/-!
## Loop lemmas: fuel monotonicity and the stuck loop
-/

/-- A latched error makes `readTrack` a no-op. -/
theorem readTrack_of_err {s : DecState} (h : s.lastErr.isSome) :
    readTrack s = s := by
  unfold readTrack
  simp [h]

/-- More fuel never changes a result the loop already reached: a `some`
result of `decodeLoop` is the definitive result of the Go loop. -/
theorem decodeLoop_mono {f₁ : Nat} :
    ∀ {f₂ m : Nat} {s r : DecState}, f₁ ≤ f₂ →
      decodeLoop f₁ m s = some r → decodeLoop f₂ m s = some r := by
  induction f₁ with
  | zero => intro f₂ m s r _ h; simp [decodeLoop] at h
  | succ f ih =>
    intro f₂ m s r hle h
    obtain ⟨f', rfl⟩ : ∃ f', f₂ = f' + 1 := ⟨f₂ - 1, by omega⟩
    unfold decodeLoop at h ⊢
    by_cases hc : s.off < m
    · simp only [hc, if_true] at h ⊢
      exact ih (by omega) h
    · simpa [hc] using h

/-- A `some` result of `decode` is fuel-independent. -/
theorem decode_mono {f₁ f₂ : Nat} {input : List Nat} {r : Except Err Pattern}
    (hle : f₁ ≤ f₂) (h : decode f₁ input = some r) : decode f₂ input = some r := by
  unfold decode decodeAux at h ⊢
  cases hl : decodeLoop f₁ (preTracks input).2 (preTracks input).1 with
  | none => rw [hl] at h; simp at h
  | some s => rw [hl] at h; rw [decodeLoop_mono hle hl]; exact h

/-- Once an error is latched while the offset is still below `maxOffset`,
the loop never terminates: `readTrack` is a no-op, the offset never
advances, and every fuel runs out. -/
theorem decodeLoop_stuck {s : DecState} (he : s.lastErr.isSome) :
    ∀ fuel m, s.off < m → decodeLoop fuel m s = none := by
  intro fuel
  induction fuel with
  | zero => intro m _; rfl
  | succ f ih =>
    intro m hm
    unfold decodeLoop
    rw [if_pos hm, readTrack_of_err he]
    exact ih m hm

/-!
## C1 — the canonical fixture decodes correctly
-/

/-- C1: Decoding the canonical well-formed fixture (tag `SPLICE`, a
bodyLength covering a 32-byte NUL-padded version `0.808-alpha`, a
little-endian float tempo 120.0, and one track record with id 0, name
`kick`, 16 steps alternating `1,0,0,0,...`) succeeds (at any fuel ≥ 2, i.e.
the loop terminates after its single iteration) and yields a Pattern with
version `0.808-alpha`, tempo bits decoding to exactly 120, one track, track
name `kick`, and first step 1. -/
theorem c1_canonical_fixture_decodes (fuel : Nat) (hf : 2 ≤ fuel) :
    decode fuel canonicalFixture = some (.ok canonicalPattern) ∧
    canonicalPattern.version = [48, 46, 56, 48, 56, 45, 97, 108, 112, 104, 97] ∧
    f32ToRat canonicalPattern.tempo = 120 ∧
    canonicalPattern.tracks.length = 1 ∧
    ((canonicalPattern.tracks.headD ⟨0, [], []⟩).name = [107, 105, 99, 107]) ∧
    ((canonicalPattern.tracks.headD ⟨0, [], []⟩).steps.headD 0 = 1) := by
  refine ⟨decode_mono hf (by decide), by decide, by norm_num [f32ToRat, canonicalPattern], by decide, by decide, by decide⟩

/-- Witness for C1 at fuel 2. -/
theorem c1_canonical_fixture_decodes_witness :
    decode 2 canonicalFixture = some (.ok canonicalPattern) ∧
    canonicalPattern.version = [48, 46, 56, 48, 56, 45, 97, 108, 112, 104, 97] ∧
    f32ToRat canonicalPattern.tempo = 120 ∧
    canonicalPattern.tracks.length = 1 ∧
    ((canonicalPattern.tracks.headD ⟨0, [], []⟩).name = [107, 105, 99, 107]) ∧
    ((canonicalPattern.tracks.headD ⟨0, [], []⟩).steps.headD 0 = 1) :=
  c1_canonical_fixture_decodes 2 (by decide)

/-!
## C2 — decode hangs on truncated input instead of failing
-/

/-- The canonical fixture truncated to 20 bytes: the 14-byte header and
length are intact (declared body length 61, so `maxOffset = 75`), but only
6 bytes of the version field remain. -/
def c2TruncatedFixture : List Nat := canonicalFixture.take 20

/-- C2 (code bug): truncating a well-formed input below what its declared
bodyLength requires does NOT make decode fail with a truncation error — it
makes decode loop forever.  `readVersion`'s failed read latches the error at
offset 20; `readTrack` is then a no-op, the offset stays below
`maxOffset = 75`, and the loop `for currentOffset() < maxOffset` never
terminates: no fuel suffices, so the Go program never returns any result. -/
theorem c2_truncated_input_hangs :
    ∀ fuel, decode fuel c2TruncatedFixture = none := by
  intro fuel
  unfold decode decodeAux
  rw [show preTracks c2TruncatedFixture =
      (⟨c2TruncatedFixture, 20, some .truncated, ⟨[], [], 0, []⟩⟩, 75) from by decide]
  rw [decodeLoop_stuck (by decide) fuel 75 (by decide)]
  rfl

/-!
## C3 — the track loop does not terminate on every input
-/

/-- A 14-byte input: valid `SPLICE` tag and a declared body length of 1,
with no body bytes at all. -/
def c3ShortBody : List Nat := spliceBytes ++ [0, 0, 0, 0, 0, 0, 0, 1]

/-- C3 (code bug): the track-reading loop is NOT guaranteed to terminate.
On `c3ShortBody` the version read fails at offset 14 and latches the error;
`maxOffset` is 15, the offset never advances past 14, and the loop spins
forever — for every fuel the loop is still running. -/
theorem c3_loop_spins_forever :
    ∀ fuel, decode fuel c3ShortBody = none := by
  intro fuel
  unfold decode decodeAux
  rw [show preTracks c3ShortBody =
      (⟨c3ShortBody, 14, some .truncated, ⟨[], [], 0, []⟩⟩, 15) from by decide]
  rw [decodeLoop_stuck (by decide) fuel 15 (by decide)]
  rfl

/-!
## C5 — tempo is little-endian while integers are big-endian
-/

/-- The canonical fixture with tempo bytes `40 00 00 42`, whose
little-endian and big-endian float interpretations are both normal numbers
and differ. -/
def c5Fixture : List Nat :=
  spliceBytes ++ [0, 0, 0, 0, 0, 0, 0, 61] ++
  ([48, 46, 56, 48, 56, 45, 97, 108, 112, 104, 97] ++ List.replicate 21 0) ++
  [64, 0, 0, 66] ++
  [0] ++ [0, 0, 0, 4] ++ [107, 105, 99, 107] ++
  [1, 0, 0, 0, 1, 0, 0, 0, 1, 0, 0, 0, 1, 0, 0, 0]

/-- C5: the tempo field is decoded as a little-endian 32-bit float while
the multi-byte integer fields are big-endian.  On `c5Fixture` the decode
only parses one track because the 8-byte body length `00..00 3D` reads as
61 big-endian (little-endian it would be `61·2^56`) and the name length
`00 00 00 04` reads as 4 big-endian; the tempo bytes `40 00 00 42` yield
the little-endian bit pattern `0x42000040` (the float `32 + 2^-12`), not
the big-endian pattern `0x40000042`, and the two interpretations are
different float values. -/
theorem c5_tempo_little_endian :
    decode 2 c5Fixture = some (.ok
      { version := [48, 46, 56, 48, 56, 45, 97, 108, 112, 104, 97],
        tempo := leNat [64, 0, 0, 66],
        tracks := [⟨0, [107, 105, 99, 107],
                   [1, 0, 0, 0, 1, 0, 0, 0, 1, 0, 0, 0, 1, 0, 0, 0]⟩] }) ∧
    leNat [64, 0, 0, 66] ≠ beNat [64, 0, 0, 66] ∧
    f32ToRat (leNat [64, 0, 0, 66]) ≠ f32ToRat (beNat [64, 0, 0, 66]) := by
  refine ⟨by decide, by decide, ?_⟩
  norm_num [f32ToRat, leNat, beNat]

/-!
## C6 — NUL trimming strips leading runs too
-/

/-- Input with body length 36 (version and tempo only, no tracks) whose
version field is `00 41` followed by 30 NULs: under the claim the leading
NUL would be preserved and the version would decode to `[0, 65]`. -/
def c6LeadingNulInput : List Nat :=
  spliceBytes ++ [0, 0, 0, 0, 0, 0, 0, 36] ++
  ([0, 65] ++ List.replicate 30 0) ++ [0, 0, 240, 66]

/-- C6 counterexample: the code uses `bytes.Trim(b, "\x00")`, which strips
the LEADING run of NUL bytes as well as the trailing one.  The version
field `00 41 00…00` decodes to `[65]`, not to `[0, 65]` as the claim
("any leading NUL bytes are preserved as-is") requires. -/
theorem c6_counterexample_leading_nul_stripped :
    decode 1 c6LeadingNulInput =
      some (.ok { version := [65], tempo := leNat [0, 0, 240, 66], tracks := [] }) ∧
    [65] ≠ [0, 65] := by
  exact ⟨by decide, by decide⟩

/-!
## C9 — no MalformedField check: bodyEnd wraps around silently
-/

/-- Input whose declared body length is `2^64 - 1` (`FF…FF`), followed by a
version field and tempo: `maxOffset = (14 + (2^64-1)) mod 2^64 = 13`, which
precedes the offset. -/
def c9WrapInput : List Nat :=
  spliceBytes ++ List.replicate 8 255 ++ List.replicate 32 0 ++ [0, 0, 240, 66]

/-- C9 counterexample: a bodyLength that makes bodyEnd precede the current
offset is NOT detected and NOT reported as any error.  The `uint64`
computation `maxOffset := currentOffset() + length` silently wraps to 13,
the track loop (offset 50) runs zero times, and decode SUCCEEDS, returning
a pattern with empty tracks — there is no `MalformedField` error anywhere
in the code. -/
theorem c9_counterexample_wrap_succeeds :
    decode 1 c9WrapInput =
      some (.ok { version := [], tempo := leNat [0, 0, 240, 66], tracks := [] }) := by
  decide

/-!
## The invalid-header path (C4, C10)
-/

/-- A latched error makes `readLengthSt` return 0 without reading. -/
theorem readLengthSt_of_err {s : DecState} (h : s.lastErr.isSome) :
    readLengthSt s = (s, 0) := by
  unfold readLengthSt; simp [h]

/-- A latched error makes `readVersion` a no-op. -/
theorem readVersion_of_err {s : DecState} (h : s.lastErr.isSome) :
    readVersion s = s := by
  unfold readVersion; simp [h]

/-- A latched error makes `readTempo` a no-op. -/
theorem readTempo_of_err {s : DecState} (h : s.lastErr.isSome) :
    readTempo s = s := by
  unfold readTempo; simp [h]

/-- When the first 6 bytes are not `SPLICE`, `checkHeader` leaves the
`Invalid header` error (overwriting a read error on short input, where the
zero-filled buffer also fails the comparison) and the offset at
`min 6 input.length`. -/
theorem checkHeader_mismatch (input : List Nat) (h : input.take 6 ≠ spliceBytes) :
    checkHeader (DecState.init input) =
      ⟨input, min 6 input.length, some .invalidHeader, ⟨[], [], 0, []⟩⟩ := by
  unfold checkHeader dread DecState.init
  by_cases h6 : 0 + 6 ≤ input.length
  · simp only [h6, if_true, Option.isSome_none, Bool.false_eq_true, if_false,
      List.drop_zero, Option.getD_some, Nat.zero_add]
    rw [if_neg h]
    simp only [DecState.mk.injEq, Pattern.mk.injEq, and_true, true_and]
    omega
  · simp only [h6, if_false, Option.isSome_none, Bool.false_eq_true,
      Option.getD_none, Nat.zero_add]
    rw [if_neg (by decide : ¬ List.replicate 6 0 = spliceBytes)]
    simp only [DecState.mk.injEq, Pattern.mk.injEq, and_true, true_and]
    omega

/-- On a tag mismatch the whole pipeline stops: length, version, tempo and
tracks stay at their defaults and decode reports the invalid-header
error. -/
theorem decode_invalidHeader (input : List Nat) (fuel : Nat) (hf : 1 ≤ fuel)
    (h : input.take 6 ≠ spliceBytes) :
    decodeAux fuel input =
      some ⟨input, min 6 input.length, some .invalidHeader, ⟨[], [], 0, []⟩⟩ ∧
    decode fuel input = some (.error .invalidHeader) := by
  obtain ⟨k, rfl⟩ : ∃ k, fuel = k + 1 := ⟨fuel - 1, by omega⟩
  have hm : (min 6 input.length + 0) % 2 ^ 64 = min 6 input.length :=
    Nat.mod_eq_of_lt (by
      have h1 := Nat.min_le_left 6 input.length
      have h2 : (2:Nat) ^ 64 = 18446744073709551616 := by norm_num
      omega)
  have haux : decodeAux (k + 1) input =
      some ⟨input, min 6 input.length, some .invalidHeader, ⟨[], [], 0, []⟩⟩ := by
    unfold decodeAux preTracks
    rw [checkHeader_mismatch input h]
    simp only [readLengthSt_of_err, readVersion_of_err, readTempo_of_err,
      Option.isSome_some]
    rw [hm]
    unfold decodeLoop
    rw [if_neg (lt_irrefl _)]
  exact ⟨haux, by unfold decode; rw [haux]; rfl⟩

/-- C4: for every input whose first 6 bytes are not the ASCII literal
`SPLICE`, decode fails with the invalid-header error and returns no
Pattern, and no further field is decoded after the tag mismatch: the final
decoder state has the offset at most 6 and the version, tempo and tracks
still at their defaults. -/
theorem c4_invalid_tag_fails (input : List Nat) (fuel : Nat) (hf : 1 ≤ fuel)
    (h : input.take 6 ≠ spliceBytes) :
    decodeAux fuel input =
      some ⟨input, min 6 input.length, some .invalidHeader, ⟨[], [], 0, []⟩⟩ ∧
    decode fuel input = some (.error .invalidHeader) :=
  decode_invalidHeader input fuel hf h

/-- Witness for C4: the input `[1, 2, 3, 4, 5, 6, 7]` at fuel 1. -/
theorem c4_invalid_tag_fails_witness :
    decodeAux 1 [1, 2, 3, 4, 5, 6, 7] =
      some ⟨[1, 2, 3, 4, 5, 6, 7], min 6 [1, 2, 3, 4, 5, 6, 7].length,
            some .invalidHeader, ⟨[], [], 0, []⟩⟩ ∧
    decode 1 [1, 2, 3, 4, 5, 6, 7] = some (.error .invalidHeader) :=
  c4_invalid_tag_fails [1, 2, 3, 4, 5, 6, 7] 1 (by decide) (by decide)

/-- C10: for every input shorter than 6 bytes, decode fails with the
invalid-header error rather than a truncation error — `checkHeader`
compares the (zero-filled) buffer against `SPLICE` even though the 6-byte
read failed, and the mismatch error overwrites the read error. -/
theorem c10_short_input_invalid_header (input : List Nat) (fuel : Nat)
    (hf : 1 ≤ fuel) (h : input.length < 6) :
    decode fuel input = some (.error .invalidHeader) := by
  have hne : input.take 6 ≠ spliceBytes := by
    intro heq
    have := congrArg List.length heq
    simp [List.length_take, spliceBytes] at this
    omega
  exact (decode_invalidHeader input fuel hf hne).2

/-- Witness for C10: the 2-byte input `[83, 80]` at fuel 3. -/
theorem c10_short_input_invalid_header_witness :
    decode 3 [83, 80] = some (.error .invalidHeader) :=
  c10_short_input_invalid_header [83, 80] 3 (by decide) (by decide)

/-!
## Success-path evaluation lemmas
-/

/-- `checkHeader` on a matching tag: offset 6, no error. -/
theorem checkHeader_ok {input : List Nat} (htag : input.take 6 = spliceBytes)
    (hlen : 6 ≤ input.length) :
    checkHeader (DecState.init input) = ⟨input, 6, none, ⟨[], [], 0, []⟩⟩ := by
  unfold checkHeader dread DecState.init
  simp only [Option.isSome_none, Bool.false_eq_true, if_false, List.drop_zero,
    Nat.zero_add]
  rw [if_pos hlen]
  simp only [Option.getD_some]
  rw [if_pos htag]

/-- A successful `readLengthSt`: advances 8 bytes, returns their big-endian
value. -/
theorem readLengthSt_ok {s : DecState} (he : s.lastErr = none)
    (hlen : s.off + 8 ≤ s.input.length) :
    readLengthSt s =
      ({ s with off := s.off + 8 }, beNat ((s.input.drop s.off).take 8)) := by
  unfold readLengthSt dread
  rw [he]
  simp only [Option.isSome_none, Bool.false_eq_true, if_false]
  rw [if_pos hlen]
  simp only [Option.getD_some]

/-- A successful `readVersion`: advances 32 bytes, stores the NUL-trimmed
bytes. -/
theorem readVersion_ok {s : DecState} (he : s.lastErr = none)
    (hlen : s.off + 32 ≤ s.input.length) :
    readVersion s =
      { s with off := s.off + 32,
               pattern.version := trimNuls ((s.input.drop s.off).take 32) } := by
  unfold readVersion dread
  rw [he]
  simp only [Option.isSome_none, Bool.false_eq_true, if_false]
  rw [if_pos hlen]
  simp only [Option.getD_some]

/-- A successful `readTempo`: advances 4 bytes, stores their little-endian
value. -/
theorem readTempo_ok {s : DecState} (he : s.lastErr = none)
    (hlen : s.off + 4 ≤ s.input.length) :
    readTempo s =
      { s with off := s.off + 4,
               pattern.tempo := leNat ((s.input.drop s.off).take 4) } := by
  unfold readTempo dread
  rw [he]
  simp only [Option.isSome_none, Bool.false_eq_true, if_false]
  rw [if_pos hlen]

/-- A loop whose entry offset already reaches `maxOffset` exits at once. -/
theorem decodeLoop_exit {s : DecState} {m : Nat} (h : ¬ s.off < m) (k : Nat) :
    decodeLoop (k + 1) m s = some s := by
  unfold decodeLoop
  rw [if_neg h]

/-- Every input with a valid tag, at least 50 bytes, and a `maxOffset` that
does not exceed 50 decodes successfully with an empty track list, the
version and tempo still read from their fixed offsets 14 and 46. -/
theorem decode_no_tracks (input : List Nat) (fuel : Nat) (hf : 1 ≤ fuel)
    (htag : input.take 6 = spliceBytes) (hsz : 50 ≤ input.length)
    (hmax : (14 + beNat ((input.drop 6).take 8)) % 2 ^ 64 ≤ 50) :
    decode fuel input = some (.ok
      ⟨[], trimNuls ((input.drop 14).take 32), leNat ((input.drop 46).take 4), []⟩) := by
  obtain ⟨k, rfl⟩ : ∃ k, fuel = k + 1 := ⟨fuel - 1, by omega⟩
  have e1 : checkHeader (DecState.init input) =
      ⟨input, 6, none, ⟨[], [], 0, []⟩⟩ :=
    checkHeader_ok htag (by omega)
  have e2 : readLengthSt ⟨input, 6, none, ⟨[], [], 0, []⟩⟩ =
      (⟨input, 14, none, ⟨[], [], 0, []⟩⟩, beNat ((input.drop 6).take 8)) :=
    readLengthSt_ok rfl (show 6 + 8 ≤ input.length by omega)
  have e3 : readVersion ⟨input, 14, none, ⟨[], [], 0, []⟩⟩ =
      ⟨input, 46, none, ⟨[], trimNuls ((input.drop 14).take 32), 0, []⟩⟩ :=
    readVersion_ok rfl (show 14 + 32 ≤ input.length by omega)
  have e4 : readTempo ⟨input, 46, none, ⟨[], trimNuls ((input.drop 14).take 32), 0, []⟩⟩ =
      ⟨input, 50, none,
       ⟨[], trimNuls ((input.drop 14).take 32), leNat ((input.drop 46).take 4), []⟩⟩ :=
    readTempo_ok rfl (show 46 + 4 ≤ input.length by omega)
  unfold decode decodeAux preTracks
  rw [e1]
  simp only
  rw [e2]
  simp only
  rw [e3, e4]
  rw [decodeLoop_exit (show ¬ (50 < (14 + beNat ((input.drop 6).take 8)) % 2 ^ 64) from
    by omega) k]
  rfl

/-!
## C8 — zero body length decodes to an empty track list
-/

/-- C8: every input with a valid `SPLICE` tag, a declared bodyLength of 0,
and at least 36 further bytes (total length ≥ 50) decodes successfully with
an empty tracks sequence; version and tempo are still read from their fixed
offsets 14 and 46. -/
theorem c8_zero_body_length (input : List Nat) (fuel : Nat) (hf : 1 ≤ fuel)
    (htag : input.take 6 = spliceBytes)
    (hzero : (input.drop 6).take 8 = List.replicate 8 0)
    (hsz : 50 ≤ input.length) :
    decode fuel input = some (.ok
      ⟨[], trimNuls ((input.drop 14).take 32), leNat ((input.drop 46).take 4), []⟩) :=
  decode_no_tracks input fuel hf htag hsz (by rw [hzero]; decide)

/-- A concrete zero-bodyLength input: version field `76 00…00`, tempo
bytes `00 00 F0 42`. -/
def zeroLenInput : List Nat :=
  spliceBytes ++ List.replicate 8 0 ++ (118 :: List.replicate 31 0) ++ [0, 0, 240, 66]

/-- Witness for C8 on `zeroLenInput` at fuel 1. -/
theorem c8_zero_body_length_witness :
    decode 1 zeroLenInput = some (.ok
      ⟨[], trimNuls ((zeroLenInput.drop 14).take 32),
       leNat ((zeroLenInput.drop 46).take 4), []⟩) :=
  c8_zero_body_length zeroLenInput 1 (by decide) (by decide) (by decide) (by decide)

/-!
## C9 (amended) — the wrapped bodyEnd is computed silently
-/

/-- C9 as amended: the code performs no validation of the declared
bodyLength at all — `maxOffset := currentOffset() + length` is computed in
`uint64` arithmetic, so a bodyLength in `[2^64 - 14, 2^64)` makes bodyEnd
wrap around below the current offset; the track loop then runs zero times
and decode SUCCEEDS with an empty track list instead of reporting any
error (the code has no `MalformedField` error). -/
theorem c9_amended_wrap_computed_silently (input : List Nat) (fuel : Nat)
    (hf : 1 ≤ fuel) (htag : input.take 6 = spliceBytes) (hsz : 50 ≤ input.length)
    (hwrap : 2 ^ 64 - 14 ≤ beNat ((input.drop 6).take 8))
    (hlt : beNat ((input.drop 6).take 8) < 2 ^ 64) :
    decode fuel input = some (.ok
      ⟨[], trimNuls ((input.drop 14).take 32), leNat ((input.drop 46).take 4), []⟩) :=
  decode_no_tracks input fuel hf htag hsz (by
    have h2 : (2:Nat) ^ 64 = 18446744073709551616 := by norm_num
    rw [h2] at hwrap hlt ⊢
    omega)

/-- Witness for the amended C9 on `c9WrapInput` (bodyLength `2^64 - 1`) at
fuel 1. -/
theorem c9_amended_wrap_computed_silently_witness :
    decode 1 c9WrapInput = some (.ok
      ⟨[], trimNuls ((c9WrapInput.drop 14).take 32),
       leNat ((c9WrapInput.drop 46).take 4), []⟩) :=
  c9_amended_wrap_computed_silently c9WrapInput 1 (by decide) (by decide)
    (by decide) (by decide) (by decide)

/-!
## C6 (amended) — trimming strips both NUL runs; non-NUL names round-trip
-/

/-- A successful `readTrack`: reads id (1 byte), big-endian name length
(4 bytes), the name (trimmed), and 16 step bytes, appending the track and
advancing the offset accordingly. -/
theorem readTrack_ok {s : DecState} (he : s.lastErr = none)
    (hsz : s.off + 1 + 4 + beNat ((s.input.drop (s.off + 1)).take 4) + 16 ≤
      s.input.length) :
    readTrack s =
      { s with
        off := s.off + 1 + 4 + beNat ((s.input.drop (s.off + 1)).take 4) + 16,
        pattern.tracks := s.pattern.tracks ++
          [⟨((s.input.drop s.off).take 1).headD 0,
            trimNuls ((s.input.drop (s.off + 1 + 4)).take
              (beNat ((s.input.drop (s.off + 1)).take 4))),
            (s.input.drop (s.off + 1 + 4 +
              beNat ((s.input.drop (s.off + 1)).take 4))).take 16⟩] } := by
  unfold readTrack dread
  rw [he]
  simp only [Option.isSome_none, Bool.false_eq_true, if_false]
  rw [if_pos (show s.off + 1 ≤ s.input.length by omega)]
  simp only [Option.getD_some]
  rw [if_pos (show s.off + 1 + 4 ≤ s.input.length by omega)]
  simp only [Option.getD_some]
  rw [if_pos (show s.off + 1 + 4 + beNat ((s.input.drop (s.off + 1)).take 4) ≤
    s.input.length by omega)]
  simp only [Option.getD_some]
  rw [if_pos hsz]
  simp only [Option.getD_some]

/-- A two-iteration run of the track loop: one track read, then exit. -/
theorem decodeLoop_two {s t : DecState} {m : Nat} (h2 : readTrack s = t)
    (h1 : s.off < m) (h3 : ¬ t.off < m) : decodeLoop 2 m s = some t := by
  unfold decodeLoop
  rw [if_pos h1, h2]
  unfold decodeLoop
  rw [if_neg h3]

/-- `bytes.Trim` leaves a 4-byte list with non-NUL first and last bytes
unchanged. -/
theorem trimNuls_four {a b c d : Nat} (ha : a ≠ 0) (hd : d ≠ 0) :
    trimNuls [a, b, c, d] = [a, b, c, d] := by
  simp [trimNuls, List.dropWhile_cons, ha, hd]

/-- The 55 bytes preceding the track name in `c6Fix`: tag, body length 61,
a 32-byte version field `00 00 30 00 38 00…00` (leading NUL run, interior
NUL, trailing NUL run), tempo bytes, track id 7, name length 4. -/
def c6Before : List Nat :=
  spliceBytes ++ [0, 0, 0, 0, 0, 0, 0, 61] ++
  ([0, 0, 48, 0, 56] ++ List.replicate 27 0) ++
  [0, 0, 240, 66] ++ [7] ++ [0, 0, 0, 4]

/-- The 16 step bytes following the track name in `c6Fix`. -/
def c6After : List Nat := List.replicate 16 1

/-- A well-formed single-track input whose 4-byte track name is the given
list. -/
def c6Fix (nm : List Nat) : List Nat := c6Before ++ (nm ++ c6After)

/-- C6 as amended: fixed-length text fields are decoded by stripping the
leading AND trailing runs of NUL bytes (`bytes.Trim`), with interior NUL
bytes preserved; a name of exactly `nameLen` non-NUL bytes decodes to those
bytes unchanged.  The version field `00 00 30 00 38 00…00` decodes to
`[48, 0, 56]` — both end runs stripped, the interior NUL kept — and any
4-byte name of non-NUL bytes `[a, b, c, d]` round-trips unchanged. -/
theorem c6_amended_trim_both_ends (a b c d : Nat)
    (ha : a ≠ 0) (hb : b ≠ 0) (hc : c ≠ 0) (hd : d ≠ 0) :
    decode 2 (c6Fix [a, b, c, d]) = some (.ok
      ⟨[], [48, 0, 56], leNat [0, 0, 240, 66],
       [⟨7, [a, b, c, d], List.replicate 16 1⟩]⟩) := by
  have hlen : (c6Fix [a, b, c, d]).length = 75 := rfl
  have e1 : checkHeader (DecState.init (c6Fix [a, b, c, d])) =
      ⟨c6Fix [a, b, c, d], 6, none, ⟨[], [], 0, []⟩⟩ :=
    checkHeader_ok rfl (by omega)
  have e2 : readLengthSt ⟨c6Fix [a, b, c, d], 6, none, ⟨[], [], 0, []⟩⟩ =
      (⟨c6Fix [a, b, c, d], 14, none, ⟨[], [], 0, []⟩⟩, 61) :=
    readLengthSt_ok rfl (show 6 + 8 ≤ (c6Fix [a, b, c, d]).length by omega)
  have e3 : readVersion ⟨c6Fix [a, b, c, d], 14, none, ⟨[], [], 0, []⟩⟩ =
      ⟨c6Fix [a, b, c, d], 46, none, ⟨[], [48, 0, 56], 0, []⟩⟩ :=
    readVersion_ok rfl (show 14 + 32 ≤ (c6Fix [a, b, c, d]).length by omega)
  have e4 : readTempo ⟨c6Fix [a, b, c, d], 46, none, ⟨[], [48, 0, 56], 0, []⟩⟩ =
      ⟨c6Fix [a, b, c, d], 50, none,
       ⟨[], [48, 0, 56], leNat [0, 0, 240, 66], []⟩⟩ :=
    readTempo_ok rfl (show 46 + 4 ≤ (c6Fix [a, b, c, d]).length by omega)
  have e5 : readTrack ⟨c6Fix [a, b, c, d], 50, none,
      ⟨[], [48, 0, 56], leNat [0, 0, 240, 66], []⟩⟩ =
      ⟨c6Fix [a, b, c, d], 75, none,
       ⟨[], [48, 0, 56], leNat [0, 0, 240, 66],
        [⟨7, trimNuls [a, b, c, d], List.replicate 16 1⟩]⟩⟩ :=
    readTrack_ok rfl (by
      show 50 + 1 + 4 + beNat (((c6Fix [a, b, c, d]).drop (50 + 1)).take 4) + 16 ≤
        (c6Fix [a, b, c, d]).length
      rw [show beNat (((c6Fix [a, b, c, d]).drop (50 + 1)).take 4) = 4 from rfl]
      omega)
  rw [trimNuls_four ha hd] at e5
  unfold decode decodeAux preTracks
  rw [e1]
  simp only
  rw [e2]
  simp only
  rw [e3, e4]
  rw [decodeLoop_two e5 (show (50:Nat) < (14 + 61) % 2 ^ 64 from by decide)
    (show ¬ (75:Nat) < (14 + 61) % 2 ^ 64 from by decide)]
  rfl

/-- Witness for the amended C6 with the name `kick`. -/
theorem c6_amended_trim_both_ends_witness :
    decode 2 (c6Fix [107, 105, 99, 107]) = some (.ok
      ⟨[], [48, 0, 56], leNat [0, 0, 240, 66],
       [⟨7, [107, 105, 99, 107], List.replicate 16 1⟩]⟩) :=
  c6_amended_trim_both_ends 107 105 99 107 (by decide) (by decide) (by decide)
    (by decide)

/-!
## C7 — trailing bytes beyond the declared body never affect a successful
decode

The argument is a simulation: extending the input with extra bytes
(`extSt`) commutes with every decoding step that stayed in bounds, and a
successful decode only performs in-bounds reads (an out-of-bounds read
latches an error, which either surfaces as an error result or hangs the
loop — never as a successful decode).
-/

/-- Appending extra bytes to the decoder's input. -/
def extSt (x : List Nat) (s : DecState) : DecState :=
  { s with input := s.input ++ x }

/-- An in-bounds byte window is unchanged by appending to the input. -/
theorem window {l x : List Nat} {i n : Nat} (h : i + n ≤ l.length) :
    ((l ++ x).drop i).take n = (l.drop i).take n := by
  rw [List.drop_append_of_le_length (by omega),
    List.take_append_of_le_length (by rw [List.length_drop]; omega)]

/-- A `checkHeader` that leaves no error read 6 in-bounds bytes and they
matched `SPLICE`. -/
theorem checkHeader_cond {s : DecState} (he : s.lastErr = none)
    (hok : (checkHeader s).lastErr = none) :
    s.off + 6 ≤ s.input.length ∧ (s.input.drop s.off).take 6 = spliceBytes := by
  by_cases h1 : s.off + 6 ≤ s.input.length
  · refine ⟨h1, ?_⟩
    by_cases hh : (s.input.drop s.off).take 6 = spliceBytes
    · exact hh
    · exfalso; unfold checkHeader dread at hok; simp [he, h1, hh] at hok
  · exfalso
    unfold checkHeader dread at hok
    simp [he, h1, spliceBytes] at hok

/-- A `readLengthSt` that leaves no error read in bounds. -/
theorem readLengthSt_cond {s : DecState} (he : s.lastErr = none)
    (hok : ((readLengthSt s).1).lastErr = none) :
    s.off + 8 ≤ s.input.length := by
  by_contra h1
  unfold readLengthSt dread at hok
  simp [he, h1] at hok

/-- A `readVersion` that leaves no error read in bounds. -/
theorem readVersion_cond {s : DecState} (he : s.lastErr = none)
    (hok : (readVersion s).lastErr = none) :
    s.off + 32 ≤ s.input.length := by
  by_contra h1
  unfold readVersion dread at hok
  simp [he, h1] at hok

/-- A `readTempo` that leaves no error read in bounds. -/
theorem readTempo_cond {s : DecState} (he : s.lastErr = none)
    (hok : (readTempo s).lastErr = none) :
    s.off + 4 ≤ s.input.length := by
  by_contra h1
  unfold readTempo dread at hok
  simp [he, h1] at hok

/-- A `readTrack` that leaves no error performed all four reads in bounds;
in particular the whole record fits in the input. -/
theorem readTrack_cond {s : DecState} (he : s.lastErr = none)
    (hok : (readTrack s).lastErr = none) :
    s.off + 1 + 4 + beNat ((s.input.drop (s.off + 1)).take 4) + 16 ≤
      s.input.length := by
  by_contra hsz
  have hL0 : beNat (List.replicate 4 0) = 0 := by decide
  have hL1 : beNat [0, 0, 0, 0] = 0 := by decide
  have w4 : ¬ (s.input.length + 4 ≤ s.input.length) := by omega
  have w16 : ¬ (s.input.length + 16 ≤ s.input.length) := by omega
  have w0 : s.input.length + 0 ≤ s.input.length := by omega
  have w016 : ¬ (s.input.length + 0 + 16 ≤ s.input.length) := by omega
  by_cases h1 : s.off + 1 ≤ s.input.length
  · by_cases h2 : s.off + 1 + 4 ≤ s.input.length
    · by_cases h3 : s.off + 1 + 4 + beNat ((s.input.drop (s.off + 1)).take 4) ≤
        s.input.length
      · unfold readTrack dread at hok
        simp [he, h1, h2, h3, hsz, hL0, hL1, w4, w16, w0, w016] at hok
      · unfold readTrack dread at hok
        simp [he, h1, h2, h3, hL0, hL1, w4, w16, w0, w016] at hok
    · unfold readTrack dread at hok
      simp [he, h1, h2, hL0, hL1, w4, w16, w0, w016] at hok
  · unfold readTrack dread at hok
    simp [he, h1, hL0, hL1, w4, w16, w0, w016] at hok

/-- An in-bounds `checkHeader` commutes with appending input bytes. -/
theorem checkHeader_ext {s : DecState} {x : List Nat} (he : s.lastErr = none)
    (h1 : s.off + 6 ≤ s.input.length)
    (hh : (s.input.drop s.off).take 6 = spliceBytes) :
    checkHeader (extSt x s) = extSt x (checkHeader s) := by
  have hev : checkHeader s = { s with off := s.off + 6 } := by
    unfold checkHeader dread
    simp [he, h1, hh]
  have h1x : s.off + 6 ≤ s.input.length + x.length := by omega
  have hev2 : checkHeader (extSt x s) =
      { s with input := s.input ++ x, off := s.off + 6 } := by
    unfold checkHeader dread extSt
    simp [he, h1x, window (x := x) h1, hh]
  rw [hev, hev2]
  rfl

/-- An in-bounds `readLengthSt` commutes with appending input bytes and
returns the same length. -/
theorem readLengthSt_ext {s : DecState} {x : List Nat} (he : s.lastErr = none)
    (h1 : s.off + 8 ≤ s.input.length) :
    readLengthSt (extSt x s) = (extSt x (readLengthSt s).1, (readLengthSt s).2) := by
  have h1x : s.off + 8 ≤ s.input.length + x.length := by omega
  have hev := readLengthSt_ok he h1
  have hev2 : readLengthSt (extSt x s) =
      ({ s with input := s.input ++ x, off := s.off + 8 },
       beNat ((s.input.drop s.off).take 8)) := by
    unfold readLengthSt dread extSt
    simp [he, h1x, window (x := x) h1]
  rw [hev, hev2]
  rfl

/-- An in-bounds `readVersion` commutes with appending input bytes. -/
theorem readVersion_ext {s : DecState} {x : List Nat} (he : s.lastErr = none)
    (h1 : s.off + 32 ≤ s.input.length) :
    readVersion (extSt x s) = extSt x (readVersion s) := by
  have h1x : s.off + 32 ≤ s.input.length + x.length := by omega
  have hev := readVersion_ok he h1
  have hev2 : readVersion (extSt x s) =
      { s with input := s.input ++ x, off := s.off + 32,
               pattern.version := trimNuls ((s.input.drop s.off).take 32) } := by
    unfold readVersion dread extSt
    simp [he, h1x, window (x := x) h1]
  rw [hev, hev2]
  rfl

/-- An in-bounds `readTempo` commutes with appending input bytes. -/
theorem readTempo_ext {s : DecState} {x : List Nat} (he : s.lastErr = none)
    (h1 : s.off + 4 ≤ s.input.length) :
    readTempo (extSt x s) = extSt x (readTempo s) := by
  have h1x : s.off + 4 ≤ s.input.length + x.length := by omega
  have hev := readTempo_ok he h1
  have hev2 : readTempo (extSt x s) =
      { s with input := s.input ++ x, off := s.off + 4,
               pattern.tempo := leNat ((s.input.drop s.off).take 4) } := by
    unfold readTempo dread extSt
    simp [he, h1x, window (x := x) h1]
  rw [hev, hev2]
  rfl

/-- An in-bounds `readTrack` commutes with appending input bytes. -/
theorem readTrack_ext {s : DecState} {x : List Nat} (he : s.lastErr = none)
    (hsz : s.off + 1 + 4 + beNat ((s.input.drop (s.off + 1)).take 4) + 16 ≤
      s.input.length) :
    readTrack (extSt x s) = extSt x (readTrack s) := by
  have w2 : ((s.input ++ x).drop (s.off + 1)).take 4 =
      (s.input.drop (s.off + 1)).take 4 :=
    window (by omega)
  have w1 : ((s.input ++ x).drop s.off).take 1 = (s.input.drop s.off).take 1 :=
    window (by omega)
  have w3 : ((s.input ++ x).drop (s.off + 1 + 4)).take
      (beNat ((s.input.drop (s.off + 1)).take 4)) =
      (s.input.drop (s.off + 1 + 4)).take (beNat ((s.input.drop (s.off + 1)).take 4)) :=
    window (by omega)
  have w4 : ((s.input ++ x).drop (s.off + 1 + 4 +
      beNat ((s.input.drop (s.off + 1)).take 4))).take 16 =
      (s.input.drop (s.off + 1 + 4 +
        beNat ((s.input.drop (s.off + 1)).take 4))).take 16 :=
    window (by omega)
  have hszx : (extSt x s).off + 1 + 4 +
      beNat (((extSt x s).input.drop ((extSt x s).off + 1)).take 4) + 16 ≤
      (extSt x s).input.length := by
    show s.off + 1 + 4 + beNat (((s.input ++ x).drop (s.off + 1)).take 4) + 16 ≤
      (s.input ++ x).length
    rw [w2, List.length_append]
    omega
  rw [readTrack_ok (show (extSt x s).lastErr = none from he) hszx,
    readTrack_ok he hsz]
  simp only [extSt]
  rw [w2, w1, w3, w4]

/-- A state whose `readTempo` result carries no error carried none
before. -/
theorem readTempo_back {s : DecState} (h : (readTempo s).lastErr = none) :
    s.lastErr = none := by
  by_contra hs
  rw [readTempo_of_err (Option.ne_none_iff_isSome.mp hs)] at h
  exact hs h

/-- A state whose `readVersion` result carries no error carried none
before. -/
theorem readVersion_back {s : DecState} (h : (readVersion s).lastErr = none) :
    s.lastErr = none := by
  by_contra hs
  rw [readVersion_of_err (Option.ne_none_iff_isSome.mp hs)] at h
  exact hs h

/-- A state whose `readLengthSt` result carries no error carried none
before. -/
theorem readLengthSt_back {s : DecState} (h : ((readLengthSt s).1).lastErr = none) :
    s.lastErr = none := by
  by_contra hs
  rw [readLengthSt_of_err (Option.ne_none_iff_isSome.mp hs)] at h
  exact hs h

/-- A track loop run that finishes without error commutes with appending
input bytes: every `readTrack` it performed was in bounds. -/
theorem decodeLoop_ext {x : List Nat} : ∀ {f m : Nat} {s t : DecState},
    s.lastErr = none → t.lastErr = none →
    decodeLoop f m s = some t →
    decodeLoop f m (extSt x s) = some (extSt x t) := by
  intro f
  induction f with
  | zero => intro m s t _ _ h; simp [decodeLoop] at h
  | succ f ih =>
    intro m s t hs ht h
    unfold decodeLoop at h ⊢
    by_cases hc : s.off < m
    · rw [if_pos hc] at h
      rw [if_pos (show (extSt x s).off < m from hc)]
      by_cases hr : (readTrack s).lastErr = none
      · rw [readTrack_ext hs (readTrack_cond hs hr)]
        exact ih hr ht h
      · exfalso
        have hsome : (readTrack s).lastErr.isSome := Option.ne_none_iff_isSome.mp hr
        by_cases hc2 : (readTrack s).off < m
        · rw [decodeLoop_stuck hsome f m hc2] at h
          exact Option.noConfusion h
        · cases f with
          | zero => simp [decodeLoop] at h
          | succ g =>
            rw [decodeLoop_exit hc2 g] at h
            rw [Option.some.inj h] at hr
            exact hr ht
    · rw [if_neg hc] at h
      rw [if_neg (show ¬ (extSt x s).off < m from hc)]
      rw [Option.some.inj h]

/-- The straight-line stages before the track loop commute with appending
input bytes when they left no error, and the loop bound is unchanged. -/
theorem preTracks_ext {x : List Nat} (input : List Nat)
    (hok : ((preTracks input).1).lastErr = none) :
    preTracks (input ++ x) = (extSt x (preTracks input).1, (preTracks input).2) := by
  have hpre : preTracks input =
      (readTempo (readVersion (readLengthSt (checkHeader (DecState.init input))).1),
       ((readLengthSt (checkHeader (DecState.init input))).1.off +
        (readLengthSt (checkHeader (DecState.init input))).2) % 2 ^ 64) := rfl
  have hpreX : preTracks (input ++ x) =
      (readTempo (readVersion
        (readLengthSt (checkHeader (DecState.init (input ++ x)))).1),
       ((readLengthSt (checkHeader (DecState.init (input ++ x)))).1.off +
        (readLengthSt (checkHeader (DecState.init (input ++ x)))).2) % 2 ^ 64) := rfl
  rw [hpre] at hok
  simp only at hok
  have h3n : (readVersion
      (readLengthSt (checkHeader (DecState.init input))).1).lastErr = none :=
    readTempo_back hok
  have h2n : ((readLengthSt (checkHeader (DecState.init input))).1).lastErr = none :=
    readVersion_back h3n
  have h1n : (checkHeader (DecState.init input)).lastErr = none :=
    readLengthSt_back h2n
  have c1 := checkHeader_cond rfl h1n
  have c2 := readLengthSt_cond h1n h2n
  have c3 := readVersion_cond h2n h3n
  have c4 := readTempo_cond h3n hok
  have E1 : checkHeader (DecState.init (input ++ x)) =
      extSt x (checkHeader (DecState.init input)) :=
    checkHeader_ext rfl c1.1 c1.2
  have E2 : readLengthSt (extSt x (checkHeader (DecState.init input))) =
      (extSt x (readLengthSt (checkHeader (DecState.init input))).1,
       (readLengthSt (checkHeader (DecState.init input))).2) :=
    readLengthSt_ext h1n c2
  have E3 : readVersion (extSt x (readLengthSt (checkHeader (DecState.init input))).1) =
      extSt x (readVersion (readLengthSt (checkHeader (DecState.init input))).1) :=
    readVersion_ext h2n c3
  have E4 : readTempo (extSt x
      (readVersion (readLengthSt (checkHeader (DecState.init input))).1)) =
      extSt x (readTempo (readVersion
        (readLengthSt (checkHeader (DecState.init input))).1)) :=
    readTempo_ext h3n c4
  rw [hpreX, hpre, E1, E2]
  simp only
  rw [E3, E4]
  rfl

/-- C7: bytes beyond the declared body never affect the result of a
successful decode — appending any extra bytes to an input that decodes
successfully (in particular, to any well-formed input) yields exactly the
same Pattern.  (A decode that read out of bounds cannot return a Pattern:
the latched error surfaces as an error result or hangs the loop.) -/
theorem c7_trailing_bytes_ignored (input x : List Nat) (fuel : Nat) (p : Pattern)
    (h : decode fuel input = some (.ok p)) :
    decode fuel (input ++ x) = some (.ok p) := by
  unfold decode decodeAux at h ⊢
  cases hl : decodeLoop fuel (preTracks input).2 (preTracks input).1 with
  | none => rw [hl] at h; exact Option.noConfusion h
  | some t =>
    rw [hl] at h
    simp only [Option.map_some'] at h
    cases ht : t.lastErr with
    | some e => rw [ht] at h; simp at h
    | none =>
      rw [ht] at h
      simp only [Option.some.injEq] at h
      have hp : t.pattern = p := Except.ok.inj h
      have hs4 : ((preTracks input).1).lastErr = none := by
        by_contra hs
        have hsome := Option.ne_none_iff_isSome.mp hs
        by_cases hc : (preTracks input).1.off < (preTracks input).2
        · rw [decodeLoop_stuck hsome fuel _ hc] at hl
          exact Option.noConfusion hl
        · cases fuel with
          | zero => simp [decodeLoop] at hl
          | succ g =>
            rw [decodeLoop_exit hc g] at hl
            rw [Option.some.inj hl] at hs
            exact hs ht
      rw [preTracks_ext input hs4]
      simp only
      rw [decodeLoop_ext hs4 ht hl]
      simp only [Option.map_some']
      rw [show (extSt x t).lastErr = t.lastErr from rfl, ht]
      simp only [Option.some.injEq]
      rw [show (extSt x t).pattern = t.pattern from rfl, hp]

/-- Witness for C7: the canonical fixture with three junk bytes appended
still decodes to the canonical pattern. -/
theorem c7_trailing_bytes_ignored_witness :
    decode 2 (canonicalFixture ++ [9, 9, 9]) = some (.ok canonicalPattern) :=
  c7_trailing_bytes_ignored canonicalFixture [9, 9, 9] 2 canonicalPattern (by decide)

end Drum
